import Mathlib

/-!
Verification development for the skill-assessment interview service.

The Python sources are shallowly embedded here:
- strings are `List Char` (`Str`); the Python string helpers used by the code
  (`str.split(',')`, `str.strip()`, `str.lower()`, whitespace `str.split()`)
  are modelled on the ASCII fragment the repository manipulates;
- SQLite rows become lists of records, the interview `feedback` JSON blob
  becomes explicit record fields, and the external LLM / image services are
  parameters of the functions that call them (their network results are
  inputs, the deterministic bookkeeping around them is the embedded code);
- Python floats are embedded as `Rat` (all scores the code produces are exact
  small rationals: integer scores and their finite averages).
-/

/-- Embedded Python strings: a list of characters. -/
abbrev Str := List Char

/-- Literal helper: the character list of a Lean string literal. -/
def mkStr (s : String) : Str := s.data

/-- Python `str.split(',')` helper: accumulator-based splitter. -/
def splitCommaAux : Str → Str → List Str
  | [], acc => [acc.reverse]
  | c :: rest, acc =>
    if c = ',' then acc.reverse :: splitCommaAux rest []
    else splitCommaAux rest (c :: acc)

/-- Python `s.split(',')`: split at every comma; `"".split(',') == ['']`. -/
def splitOnComma (s : Str) : List Str := splitCommaAux s []

/-- Python `str.strip()` (ASCII whitespace): drop whitespace from both ends. -/
def pyStrip (s : Str) : Str :=
  ((s.dropWhile Char.isWhitespace).reverse.dropWhile Char.isWhitespace).reverse

/-- Python `str.split()` with no separator: whitespace-delimited words,
empty pieces dropped. Used by the evaluator's word-count heuristic. -/
def pyWordsAux : Str → Str → List Str
  | [], cur => if cur = [] then [] else [cur.reverse]
  | c :: rest, cur =>
    if c.isWhitespace then
      if cur = [] then pyWordsAux rest []
      else cur.reverse :: pyWordsAux rest []
    else pyWordsAux rest (c :: cur)

/-- Python `s.split()` (words of a string). -/
def pyWords (s : Str) : List Str := pyWordsAux s []

/-- Python `str.lower()` on the ASCII fragment: lowercase every character. -/
def lowerStr (s : Str) : Str := s.map Char.toLower

/-- The list comprehension `[skill.strip() for skill in skills.split(',') if skill.strip()]`
shared by `api/interviews.generate_skill_based_questions` (line 114) and the
middle of `ml/question_generator.parse_skills` (line 93). -/
def cleanSkills (s : Str) : List Str :=
  ((splitOnComma s).map pyStrip).filter (fun t => !t.isEmpty)

/-- The duplicate-removal loop of `parse_skills` (question_generator.py lines
96-102): keep a skill when its lowercase form has not been seen yet. -/
def dedupeAux (seen : List Str) : List Str → List Str
  | [] => []
  | s :: rest =>
    if lowerStr s ∈ seen then dedupeAux seen rest
    else s :: dedupeAux (lowerStr s :: seen) rest

/-- `QuestionGenerator.parse_skills` (question_generator.py lines 79-104):
empty input falls back to `["general skills"]` (Python truthiness: only the
empty string is falsy there), otherwise split on commas, strip, drop empty
pieces, and de-duplicate case-insensitively keeping first occurrences. -/
def parse_skills (skills_input : Str) : List Str :=
  if skills_input = [] then [mkStr "general skills"]
  else dedupeAux [] (cleanSkills skills_input)

/-- `convert_score_to_stars` (api/interviews.py lines 754-767). -/
def convert_score_to_stars (score : Rat) : Nat :=
  if score ≥ 9 then 5
  else if score ≥ 7 then 4
  else if score ≥ 5 then 3
  else if score ≥ 3 then 2
  else 1

/-- `QuestionGenerator._convert_score_to_stars` (question_generator.py lines
410-429); kept as a separate definition because it is a separate function in
the source and claim C1 compares the two. -/
def ml_convert_score_to_stars (score : Rat) : Nat :=
  if score ≥ 9 then 5
  else if score ≥ 7 then 4
  else if score ≥ 5 then 3
  else if score ≥ 3 then 2
  else 1

/-- `QuestionGenerator._determine_proficiency_level` (question_generator.py
lines 431-450). -/
def ml_determine_proficiency_level (score : Rat) : Str :=
  if score ≥ 9 then mkStr "Expert"
  else if score ≥ 7 then mkStr "Advanced"
  else if score ≥ 5 then mkStr "Intermediate"
  else if score ≥ 3 then mkStr "Beginner"
  else mkStr "Novice"

/-- The star mapping exactly as claim C1 words it, with both band ends
explicit: 5 if s ≥ 9, 4 if 7 ≤ s < 9, 3 if 5 ≤ s < 7, 2 if 3 ≤ s < 5,
1 otherwise. -/
def claimStars (s : Rat) : Nat :=
  if 9 ≤ s then 5
  else if 7 ≤ s ∧ s < 9 then 4
  else if 5 ≤ s ∧ s < 7 then 3
  else if 3 ≤ s ∧ s < 5 then 2
  else 1

/-- The proficiency labels exactly as claim C1 words them: Expert(≥9),
Advanced(≥7), Intermediate(≥5), Beginner(≥3), Novice(<3). -/
def claimLabel (s : Rat) : Str :=
  if 9 ≤ s then mkStr "Expert"
  else if 7 ≤ s ∧ s < 9 then mkStr "Advanced"
  else if 5 ≤ s ∧ s < 7 then mkStr "Intermediate"
  else if 3 ≤ s ∧ s < 5 then mkStr "Beginner"
  else mkStr "Novice"

/-- The per-skill block stored in `skill_question_map`
(api/interviews.py lines 134-139). -/
structure SkillBlock where
  start_index : Nat
  end_index : Nat
  question_count : Nat
  questions_completed : Nat
deriving DecidableEq

/-- The batch returned by `generate_skill_specific_questions` for one skill:
every code path (parsed LLM answer sliced to length, or the template
fallback) returns exactly `n` question dicts tagged with the skill name and
the 1-based `skill_index`; the question texts come from the external LLM and
are irrelevant to the claims, so a question is modelled by its
`(skill, skill_index)` tag. -/
def skillQuestions (skill : Str) (n : Nat) : List (Str × Nat) :=
  (List.range n).map (fun i => (skill, i + 1))

/-- The `all_questions` accumulation loop of `generate_skill_based_questions`
(api/interviews.py lines 120-139): batches concatenated in skill order. -/
def allQuestions (skill_list : List Str) (n : Nat) : List (Str × Nat) :=
  skill_list.flatMap (fun s => skillQuestions s n)

/-- One row inserted into `interview_questions` (api/interviews.py lines
142-155): skill name, 1-based in-skill index, and the stored
`global_question_order = i + 1`. -/
structure PlannedQuestion where
  skill : Str
  skill_index : Nat
  global_order : Nat
deriving DecidableEq

/-- The insertion loop `for i, question_data in enumerate(all_questions)`
(api/interviews.py lines 142-155). -/
def insertedQuestions (skill_list : List Str) (n : Nat) : List PlannedQuestion :=
  (allQuestions skill_list n).enum.map (fun p => ⟨p.2.1, p.2.2, p.1 + 1⟩)

/-- The `skill_question_map` dict built by the loop at api/interviews.py
lines 123-139, as a lookup function.  Each iteration `i` writes the block
`{start_index = n*i, end_index = n*(i+1), question_count = n,
questions_completed = 0}` under the skill name (`start_index` is
`len(all_questions)` before the extend, and every batch has length `n`);
a later iteration with the same name overwrites the entry, which the
`match ... | some b => some b` on the recursive call (the later writes)
models. -/
def skillMapFrom (n : Nat) : List Str → Nat → Str → Option SkillBlock
  | [], _, _ => none
  | s :: rest, i, k =>
    match skillMapFrom n rest (i + 1) k with
    | some b => some b
    | none => if k = s then some ⟨n * i, n * (i + 1), n, 0⟩ else none

/-- Final `skill_question_map` of `generate_skill_based_questions`. -/
def skill_question_map (skill_list : List Str) (n : Nat) : Str → Option SkillBlock :=
  skillMapFrom n skill_list 0

/-- Occurrences of a skill name in a skill list. -/
def occCount (l : List Str) (sk : Str) : Nat :=
  (l.filter (fun t => decide (t = sk))).length

/-- Number of generated questions carrying a given skill tag. -/
def countSkillQuestions (skill_list : List Str) (n : Nat) (sk : Str) : Nat :=
  ((allQuestions skill_list n).filter (fun q => decide (q.1 = sk))).length

/-- One `interview_questions` row as the submit/results endpoints read it:
`question_type` holds the skill name; `response` and `score` are NULLable. -/
structure IQuestion where
  qid : Nat
  skill : Str
  response : Option Str
  score : Option Rat
deriving DecidableEq

/-- One entry of the `skill_ratings` map stored in the interview `feedback`
blob by `store_skill_rating` (api/interviews.py lines 395-399); the
`completed_at` timestamp is outside the deterministic core and omitted. -/
structure SkillRating where
  star_rating : Nat
  average_score : Rat
deriving DecidableEq

/-- `Interview.status` values used by the endpoints. -/
inductive IStatus
  | pending
  | active
  | completed
  | error
deriving DecidableEq

/-- The persistent state of one interview that the submit/results endpoints
read and write: its question rows, the `skill_ratings` section of the
`feedback` JSON blob (association list in insertion order, as a Python dict),
and the `status` column. -/
structure Interview where
  questions : List IQuestion
  skill_ratings : List (Str × SkillRating)
  status : IStatus
deriving DecidableEq

/-- The rows selected by
`SELECT score FROM interview_questions WHERE interview_id = ? AND question_type = ? AND response IS NOT NULL`
(api/interviews.py lines 335-338). -/
def answeredList (qs : List IQuestion) (sk : Str) : List IQuestion :=
  qs.filter (fun q => decide (q.skill = sk) && q.response.isSome)

/-- `total_skill_questions` (api/interviews.py lines 340-343). -/
def skillTotal (qs : List IQuestion) (sk : Str) : Nat :=
  (qs.filter (fun q => decide (q.skill = sk))).length

/-- The rating `check_and_update_skill_rating` computes when it decides the
skill is complete (api/interviews.py lines 345-356): all of the skill's
questions answered, at least one, average over the non-null scores of the
answered rows, stars via `convert_score_to_stars`; `none` when the guard
fails (in which case nothing is stored). -/
def ratingOf (qs : List IQuestion) (sk : Str) : Option SkillRating :=
  if (answeredList qs sk).length = skillTotal qs sk ∧ 0 < (answeredList qs sk).length then
    if (answeredList qs sk).filterMap (fun q => q.score) = [] then none
    else some ⟨convert_score_to_stars
        (((answeredList qs sk).filterMap (fun q => q.score)).sum /
          ((((answeredList qs sk).filterMap (fun q => q.score)).length : Nat) : Rat)),
      ((answeredList qs sk).filterMap (fun q => q.score)).sum /
        ((((answeredList qs sk).filterMap (fun q => q.score)).length : Nat) : Rat)⟩
  else none

/-- Dict lookup in the `skill_ratings` association list. -/
def lookupRating : List (Str × SkillRating) → Str → Option SkillRating
  | [], _ => none
  | p :: rest, k => if p.1 = k then some p.2 else lookupRating rest k

/-- Python dict assignment `feedback_data["skill_ratings"][skill] = {...}`
(api/interviews.py lines 391-399): overwrite the existing entry in place, or
append a new one. -/
def setRating (m : List (Str × SkillRating)) (k : Str) (v : SkillRating) :
    List (Str × SkillRating) :=
  if (lookupRating m k).isSome then m.map (fun p => if p.1 = k then (k, v) else p)
  else m ++ [(k, v)]

/-- `check_and_update_skill_rating` followed by `store_skill_rating`
(api/interviews.py lines 330-405).  The returned Bool is the `completed`
field of the dict it returns. -/
def check_and_update_skill_rating (s : Interview) (sk : Str) : Interview × Bool :=
  match ratingOf s.questions sk with
  | some r => ({ s with skill_ratings := setRating s.skill_ratings sk r }, true)
  | none => (s, false)

/-- The two row updates of `submit_skill_based_response` (api/interviews.py
lines 272-292): store the response text, then the evaluation score, on the
row(s) whose id matches. -/
def updQ (qid : Nat) (resp : Str) (v : Rat) (q : IQuestion) : IQuestion :=
  if q.qid = qid then { q with response := some resp, score := some v } else q

/-- `submit_skill_based_response` (api/interviews.py lines 246-328).  The
evaluation itself is an external LLM call; its numeric outcome
(`evaluation.get("score", 0)`) is the parameter `v`.  Returns the new
interview state and the `interview_progress.completed` flag of the response
(`none` models the 404 raised before any write when the question id is
unknown). -/
def submit_skill_based_response (s : Interview) (qid : Nat) (resp : Str) (v : Rat) :
    Interview × Option Bool :=
  match s.questions.find? (fun q => decide (q.qid = qid)) with
  | none => (s, none)
  | some q0 =>
    let s1 : Interview := { s with questions := s.questions.map (updQ qid resp v) }
    let s2 := (check_and_update_skill_rating s1 q0.skill).1
    let completed : Bool :=
      decide ((s2.questions.filter (fun q => q.response.isSome)).length = s2.questions.length)
    if completed then ({ s2 with status := .completed }, some completed)
    else (s2, some completed)

/-- The on-the-fly per-skill score list of the results endpoint
(api/interviews.py lines 662-674): rows with a non-null response, grouped by
`question_type`, each score read as `q["score"] or 0`. -/
def fetchSkillScores (qs : List IQuestion) (sk : Str) : List Rat :=
  (qs.filter (fun q => q.response.isSome && decide (q.skill = sk))).map
    (fun q => q.score.getD 0)

/-- The recompute-on-the-fly star rating of the results endpoint
(api/interviews.py lines 676-679). -/
def fetchSkillRating (qs : List IQuestion) (sk : Str) : Option Nat :=
  if fetchSkillScores qs sk = [] then none
  else some (convert_score_to_stars
    ((fetchSkillScores qs sk).sum / ((fetchSkillScores qs sk).length : Rat)))

/-- Python runtime errors that escape `evaluate_response`. -/
inductive PyErr
  | attributeError
  | nameError
  | exception
deriving DecidableEq

/-- The evaluation payload fields the claims refer to.  `error` records
whether the payload carries the `error` key; the free-text `strengths`,
`weaknesses` and `feedback` fields are not referenced by any claim and are
omitted. -/
structure Evaluation where
  score : Nat
  error : Bool
  raw_llm_response : Option Str
deriving DecidableEq

/-- The word-count buckets of `_default_evaluation`
(response_evaluator.py lines 133-146). -/
def default_evaluation_score (response : Str) : Nat :=
  let n := (pyWords response).length
  if n < 10 then 2
  else if n < 25 then 4
  else if n < 50 then 6
  else if n < 100 then 7
  else 8

/-- `_default_evaluation` applied to an actual string
(response_evaluator.py lines 121-155): heuristic score, `error` key set. -/
def default_evaluation (response : Str) (raw : Str) : Evaluation :=
  { score := default_evaluation_score response
    error := true
    raw_llm_response := some raw }

/-- The dynamic value held by the local variable `response` inside
`evaluate_response`: the candidate's answer string until line 67, the LLM
payload dict afterwards (line 67 rebinds the same name). -/
inductive PyVal
  | pyStr (s : Str)
  | pyDict
deriving DecidableEq

/-- Calling `_default_evaluation(question, response, ...)` with whatever the
variable `response` currently holds: on a string it builds the heuristic
payload; on the payload dict, `response.split()` raises AttributeError
(dict has no attribute split). -/
def defaultEvaluationOn : PyVal → Str → Except PyErr Evaluation
  | .pyStr s, raw => .ok (default_evaluation s raw)
  | .pyDict, _ => .error .attributeError

/-- The outer `try/except Exception` of `evaluate_response`
(response_evaluator.py lines 65 and 117-119): any error from the body is
caught and answered with `_default_evaluation(question, response)` — whose
own outcome (including a fresh AttributeError) then escapes uncaught. -/
def outerExcept (body : Except PyErr Evaluation) (respVar : PyVal) :
    Except PyErr Evaluation :=
  match body with
  | .ok e => .ok e
  | .error _ => defaultEvaluationOn respVar (mkStr "")

/-- A successfully parsed upstream JSON object, with the optional fields the
adapter defaults (response_evaluator.py lines 79-87). -/
structure ParsedEval where
  score : Option Nat
deriving DecidableEq

/-- Field defaulting for a parseable payload: `score` defaults to 5
(response_evaluator.py lines 80-81); no `error` key is added. -/
def fillDefaults (p : ParsedEval) : Evaluation :=
  { score := p.score.getD 5, error := false, raw_llm_response := none }

/-- What the upstream call and the subsequent parse produced, the external
input of `evaluate_response`: the call raised before line 67 completed
(`callRaises`); `generate_response` returned its `{"error": ...}` failure
dict (groq_client.py lines 72-101 return such dicts on every failure);
the content parsed directly; the content parsed only via the fenced
markdown block; or no JSON was recoverable. -/
inductive UpstreamOutcome
  | callRaises
  | errorPayload (msg : Str)
  | parsedJson (p : ParsedEval)
  | markdownJson (p : ParsedEval)
  | unparseable (content : Str)
deriving DecidableEq

/-- `ResponseEvaluator.evaluate_response` (response_evaluator.py lines
25-119) as a function of the candidate response and the upstream outcome.
Control flow per outcome:
- `callRaises`: line 67 raised, `response` still holds the candidate string,
  the outer except returns the heuristic evaluation;
- `errorPayload`: line 71 calls `_default_evaluation` with `response` now
  bound to the dict — AttributeError — and the outer except repeats the same
  call on the same dict, so AttributeError escapes;
- `parsedJson` / `markdownJson`: defaulted payload returned;
- `unparseable`: line 114 references the unbound name `e` — NameError — and
  the outer except again calls `_default_evaluation` on the dict, so
  AttributeError escapes. -/
def evaluate_response (resp : Str) (o : UpstreamOutcome) : Except PyErr Evaluation :=
  match o with
  | .callRaises => outerExcept (.error .exception) (.pyStr resp)
  | .errorPayload _ => outerExcept (defaultEvaluationOn .pyDict (mkStr "")) .pyDict
  | .parsedJson p => outerExcept (.ok (fillDefaults p)) .pyDict
  | .markdownJson p => outerExcept (.ok (fillDefaults p)) .pyDict
  | .unparseable _ => outerExcept (.error .nameError) .pyDict

/-- Outcome of invoking
`card_generator.generate_cards_from_interview_results` and the file matching
and persist steps that follow it inside the try block of
`auto_generate_skill_cards` (api/interviews.py lines 429-614): either the
whole block succeeded producing a results payload (abstracted to a tag), or
some step raised. -/
inductive CardOutcome
  | ok (payload : Nat)
  | raises
deriving DecidableEq

/-- Why a card-generation call answered `cards_generated: false`. -/
inductive CardFailReason
  | importFailed
  | generationFailed
deriving DecidableEq

/-- The `card_generation` information a results fetch ends up with. -/
inductive CardInfo
  | stored (payload : Nat)
  | generated (payload : Nat)
  | notGenerated (reason : CardFailReason)
  | skipped
deriving DecidableEq

/-- `auto_generate_skill_cards` (api/interviews.py lines 407-622) acting on
the stored `card_generation` block of the interview metadata.  `avail`
merges `CARD_GENERATION_AVAILABLE` and `card_generator is not None` (lines
415-427, two early returns with `cards_generated: false`).  The success path
persists the block (lines 583-604) and returns it; the except path (lines
616-622) returns `cards_generated: false` WITHOUT any database write.  The
final Nat counts invocations of the card generator in this call. -/
def auto_generate_skill_cards (avail : Bool) (meta : Option Nat) (outcome : CardOutcome) :
    Option Nat × CardInfo × Nat :=
  if !avail then (meta, .notGenerated .importFailed, 0)
  else
    match outcome with
    | .ok p => (some p, .generated p, 1)
    | .raises => (meta, .notGenerated .generationFailed, 1)

/-- The card-generation step of `get_interview_results_with_auto_cards`
(api/interviews.py lines 691-724): skipped without ratings; a stored
`card_generation` block short-circuits; otherwise attempt generation when
available, else answer `cards_generated: false` without persisting.
Returns (new stored block, info returned to the client, generator
invocations during this fetch). -/
def resultsCardStep (hasRatings : Bool) (meta : Option Nat) (avail : Bool)
    (outcome : CardOutcome) : Option Nat × CardInfo × Nat :=
  if !hasRatings then (meta, .skipped, 0)
  else
    match meta with
    | some p => (some p, .stored p, 0)
    | none =>
      if avail then auto_generate_skill_cards avail none outcome
      else (none, .notGenerated .importFailed, 0)

/-! ## Helper lemmas -/

theorem splitCommaAux_chars (s : Str) :
    ∀ (acc t : Str), t ∈ splitCommaAux s acc → ∀ c ∈ t, c ∈ s ∨ c ∈ acc := by
  induction s with
  | nil =>
    intro acc t ht c hc
    simp only [splitCommaAux, List.mem_singleton] at ht
    subst ht
    right
    simpa using hc
  | cons d rest ih =>
    intro acc t ht c hc
    simp only [splitCommaAux] at ht
    by_cases hd : d = ','
    · rw [if_pos hd] at ht
      rcases List.mem_cons.mp ht with h1 | h1
      · subst h1
        right
        simpa using hc
      · rcases ih [] t h1 c hc with h2 | h2
        · exact Or.inl (List.mem_cons_of_mem d h2)
        · simp at h2
    · rw [if_neg hd] at ht
      rcases ih (d :: acc) t ht c hc with h2 | h2
      · exact Or.inl (List.mem_cons_of_mem d h2)
      · rcases List.mem_cons.mp h2 with h3 | h3
        · exact Or.inl (h3 ▸ List.mem_cons_self d rest)
        · exact Or.inr h3

theorem pyStrip_eq_nil (t : Str) (h : ∀ c ∈ t, c.isWhitespace) : pyStrip t = [] := by
  unfold pyStrip
  have h1 : t.dropWhile Char.isWhitespace = [] := by
    rw [List.dropWhile_eq_nil_iff]
    exact h
  simp [h1]

theorem cleanSkills_of_whitespace (s : Str) (hws : ∀ c ∈ s, c.isWhitespace) :
    cleanSkills s = [] := by
  unfold cleanSkills
  rw [List.filter_eq_nil_iff]
  intro t ht
  rcases List.mem_map.mp ht with ⟨u, hu, rfl⟩
  have hall : ∀ c ∈ u, c.isWhitespace := by
    intro c hc
    rcases splitCommaAux_chars s [] u hu c hc with h1 | h1
    · exact hws c h1
    · simp at h1
  simp [pyStrip_eq_nil u hall]

/-! ## Claim theorems -/

/-- C1: the Scoring Policy is a pure total function matching the claimed
bands — stars(s) = 5 if s ≥ 9, 4 if 7 ≤ s < 9, 3 if 5 ≤ s < 7, 2 if
3 ≤ s < 5, else 1, with the parallel labels Expert/Advanced/Intermediate/
Beginner/Novice at the same thresholds — and the two implementations
(`_convert_score_to_stars` in question_generator.py and
`convert_score_to_stars` in interviews.py) agree on every input. -/
theorem c1_scoring_policy (s : Rat) :
    ml_convert_score_to_stars s = convert_score_to_stars s ∧
    convert_score_to_stars s = claimStars s ∧
    ml_determine_proficiency_level s = claimLabel s := by
  refine ⟨rfl, ?_, ?_⟩ <;>
  · rcases le_or_lt 9 s with h9 | h9
    · simp [convert_score_to_stars, claimStars, ml_determine_proficiency_level, claimLabel, h9]
    · rcases le_or_lt 7 s with h7 | h7
      · simp [convert_score_to_stars, claimStars, ml_determine_proficiency_level, claimLabel,
          h7, h9, not_le.mpr h9]
      · rcases le_or_lt 5 s with h5 | h5
        · simp [convert_score_to_stars, claimStars, ml_determine_proficiency_level, claimLabel,
            h5, h7, h9, not_le.mpr h9, not_le.mpr h7]
        · rcases le_or_lt 3 s with h3 | h3
          · simp [convert_score_to_stars, claimStars, ml_determine_proficiency_level, claimLabel,
              h3, h5, h7, h9, not_le.mpr h9, not_le.mpr h7, not_le.mpr h5]
          · simp [convert_score_to_stars, claimStars, ml_determine_proficiency_level, claimLabel,
              h3, h5, h7, h9, not_le.mpr h9, not_le.mpr h7, not_le.mpr h5, not_le.mpr h3]

/-- C1 witness at a concrete score (not required — c1_scoring_policy has no
hypothesis — but kept as a sanity instance of the spec's example row). -/
theorem c1_example_values :
    convert_score_to_stars 9 = 5 ∧ convert_score_to_stars (8999/1000) = 4 ∧
    convert_score_to_stars 7 = 4 ∧ convert_score_to_stars (6999/1000) = 3 ∧
    convert_score_to_stars 5 = 3 ∧ convert_score_to_stars 3 = 2 ∧
    convert_score_to_stars (2999/1000) = 1 := by
  with_unfolding_all decide

/-- C2 (code bug): when the upstream evaluation fails — `generate_response`
answers its `{"error": ...}` dict, or the payload is unparseable —
`evaluate_response` does NOT return the word-count fallback evaluation: the
local variable `response` has been rebound to the upstream payload dict
(response_evaluator.py line 67), so `_default_evaluation` computes
`response.split()` on a dict and an AttributeError escapes (the outer except
retries the very same call).  The last conjunct shows the well-formed
heuristic payload (score 2 for this 5-word response, `error` field set) that
`_default_evaluation` would have produced had it received the candidate's
response string, i.e. what the claim expected. -/
theorem c2_fallback_crashes :
    (∀ resp msg, evaluate_response resp (.errorPayload msg) = .error .attributeError) ∧
    (∀ resp content, evaluate_response resp (.unparseable content) = .error .attributeError) ∧
    evaluate_response (mkStr "I used SQL daily at work") (.errorPayload (mkStr "API error: 500"))
      = .error .attributeError ∧
    default_evaluation (mkStr "I used SQL daily at work") (mkStr "") =
      { score := 2, error := true, raw_llm_response := some (mkStr "") } := by
  exact ⟨fun _ _ => rfl, fun _ _ => rfl, rfl, by decide⟩

/-- C4 counterexample: with no stored card_generation block and a total
failure of the upstream generator, the results fetch invokes the generator
(count 1), persists nothing (stored block still `none`), and the next fetch
with the resulting metadata invokes the generator again (count 1 instead of
a short-circuiting 0) — so a failure outcome is not persisted and generation
is not attempted at most once, contrary to the claim. -/
theorem c4_counterexample :
    (resultsCardStep true none true .raises).1 = none ∧
    (resultsCardStep true none true .raises).2.1 = .notGenerated .generationFailed ∧
    (resultsCardStep true none true .raises).2.2 = 1 ∧
    (resultsCardStep true (resultsCardStep true none true .raises).1 true .raises).2.2 = 1 := by
  decide

/-- C4 amended: only a successful card-generation attempt is persisted; a
stored block short-circuits every subsequent results fetch (returned
unchanged, zero generator invocations); failure outcomes (generator
unavailable, or the upstream attempt raising) answer cards_generated:false
with a reason but persist nothing, so they do not arm the short-circuit. -/
theorem c4_amended_persistence :
    (∀ p avail outcome, resultsCardStep true (some p) avail outcome = (some p, .stored p, 0)) ∧
    (∀ p, resultsCardStep true none true (.ok p) = (some p, .generated p, 1)) ∧
    (∀ outcome, resultsCardStep true none false outcome =
      (none, .notGenerated .importFailed, 0)) ∧
    (resultsCardStep true none true .raises = (none, .notGenerated .generationFailed, 1)) := by
  exact ⟨fun _ _ _ => rfl, fun _ => rfl, fun _ => rfl, rfl⟩

/-- C6: starting an interview with skills "SQL,Excel" and
questions_per_skill = 2 plans exactly 4 questions; the stored
skill_question_map blocks are the half-open 0-based ranges
SQL = (0, 2) and Excel = (2, 4), i.e. the 1-based contiguous ranges
[1, 2] and [3, 4] of the global question order, which the stored
global_question_order values of the inserted rows confirm. -/
theorem c6_plan_sql_excel :
    (insertedQuestions (cleanSkills (mkStr "SQL,Excel")) 2).length = 4 ∧
    skill_question_map (cleanSkills (mkStr "SQL,Excel")) 2 (mkStr "SQL") =
      some ⟨0, 2, 2, 0⟩ ∧
    skill_question_map (cleanSkills (mkStr "SQL,Excel")) 2 (mkStr "Excel") =
      some ⟨2, 4, 2, 0⟩ ∧
    ((insertedQuestions (cleanSkills (mkStr "SQL,Excel")) 2).filter
      (fun q => decide (q.skill = mkStr "SQL"))).map (fun q => q.global_order) = [1, 2] ∧
    ((insertedQuestions (cleanSkills (mkStr "SQL,Excel")) 2).filter
      (fun q => decide (q.skill = mkStr "Excel"))).map (fun q => q.global_order) = [3, 4] := by
  decide

/-- C7 counterexample: the whitespace-only input " " is truthy in Python, so
`parse_skills` takes the split path and returns the empty list, not
["general skills"]. -/
theorem c7_counterexample :
    parse_skills (mkStr " ") = [] ∧
    parse_skills (mkStr " ") ≠ [mkStr "general skills"] := by
  decide

/-- C7 amended: only the genuinely empty input string falls back to
["general skills"]; a nonempty input consisting solely of whitespace parses
to the empty skill list (every comma piece strips to empty and is dropped). -/
theorem c7_empty_vs_whitespace (s : Str) (hne : s ≠ []) (hws : ∀ c ∈ s, c.isWhitespace) :
    parse_skills s = [] ∧ parse_skills ([] : Str) = [mkStr "general skills"] := by
  constructor
  · unfold parse_skills
    rw [if_neg hne, cleanSkills_of_whitespace s hws]
    rfl
  · rfl

/-- C7 witness: the amended statement applied to the concrete whitespace
input " ". -/
theorem c7_empty_vs_whitespace_witness :
    parse_skills (mkStr "  ") = [] ∧ parse_skills ([] : Str) = [mkStr "general skills"] :=
  c7_empty_vs_whitespace (mkStr "  ") (by decide) (by decide)

theorem mem_dedupeAux (seen l : List Str) (u : Str)
    (hu : u ∈ dedupeAux seen l) : u ∈ l ∧ lowerStr u ∉ seen := by
  induction l generalizing seen with
  | nil => simp [dedupeAux] at hu
  | cons s rest ih =>
    simp only [dedupeAux] at hu
    by_cases hs : lowerStr s ∈ seen
    · rw [if_pos hs] at hu
      rcases ih seen hu with ⟨h1, h2⟩
      exact ⟨List.mem_cons_of_mem s h1, h2⟩
    · rw [if_neg hs] at hu
      rcases List.mem_cons.mp hu with rfl | h1
      · exact ⟨List.mem_cons_self _ _, hs⟩
      · rcases ih (lowerStr s :: seen) h1 with ⟨h2, h3⟩
        exact ⟨List.mem_cons_of_mem s h2, fun hc => h3 (List.mem_cons_of_mem _ hc)⟩

theorem dedupeAux_sublist (seen l : List Str) : (dedupeAux seen l).Sublist l := by
  induction l generalizing seen with
  | nil => simp [dedupeAux]
  | cons s rest ih =>
    simp only [dedupeAux]
    by_cases hs : lowerStr s ∈ seen
    · rw [if_pos hs]
      exact (ih seen).cons s
    · rw [if_neg hs]
      exact (ih (lowerStr s :: seen)).cons₂ s

theorem nodup_lower_dedupeAux (seen l : List Str) :
    ((dedupeAux seen l).map lowerStr).Nodup := by
  induction l generalizing seen with
  | nil => simp [dedupeAux]
  | cons s rest ih =>
    simp only [dedupeAux]
    by_cases hs : lowerStr s ∈ seen
    · rw [if_pos hs]
      exact ih seen
    · rw [if_neg hs]
      simp only [List.map_cons, List.nodup_cons]
      refine ⟨?_, ih (lowerStr s :: seen)⟩
      intro hc
      rcases List.mem_map.mp hc with ⟨u, hu, he⟩
      have h2 := (mem_dedupeAux (lowerStr s :: seen) rest u hu).2
      exact h2 (by rw [he]; exact List.mem_cons_self _ _)

theorem cover_dedupeAux (seen l : List Str) (t : Str) (ht : t ∈ l) :
    lowerStr t ∈ seen ∨ ∃ u ∈ dedupeAux seen l, lowerStr u = lowerStr t := by
  induction l generalizing seen with
  | nil => simp at ht
  | cons s rest ih =>
    simp only [dedupeAux]
    by_cases hs : lowerStr s ∈ seen
    · rw [if_pos hs]
      rcases List.mem_cons.mp ht with rfl | h1
      · exact Or.inl hs
      · exact ih seen h1
    · rw [if_neg hs]
      rcases List.mem_cons.mp ht with rfl | h1
      · exact Or.inr ⟨t, List.mem_cons_self _ _, rfl⟩
      · rcases ih (lowerStr s :: seen) h1 with h2 | ⟨u, hu, he⟩
        · rcases List.mem_cons.mp h2 with h3 | h3
          · exact Or.inr ⟨s, List.mem_cons_self _ _, h3.symm⟩
          · exact Or.inl h3
        · exact Or.inr ⟨u, List.mem_cons_of_mem s hu, he⟩

theorem find_dedupeAux (seen l : List Str) (u : Str) (hu : u ∈ dedupeAux seen l) :
    l.find? (fun t => decide (lowerStr t = lowerStr u)) = some u := by
  induction l generalizing seen with
  | nil => simp [dedupeAux] at hu
  | cons s rest ih =>
    simp only [dedupeAux] at hu
    by_cases hs : lowerStr s ∈ seen
    · rw [if_pos hs] at hu
      have h2 := (mem_dedupeAux seen rest u hu).2
      have hne : lowerStr s ≠ lowerStr u := fun he => h2 (he ▸ hs)
      rw [List.find?_cons_of_neg _ (by simp [hne]), ih seen hu]
    · rw [if_neg hs] at hu
      rcases List.mem_cons.mp hu with rfl | h1
      · rw [List.find?_cons_of_pos _ (by simp)]
      · have h2 := (mem_dedupeAux (lowerStr s :: seen) rest u h1).2
        have hne : lowerStr s ≠ lowerStr u := by
          intro he
          exact h2 (by rw [← he]; exact List.mem_cons_self _ _)
        rw [List.find?_cons_of_neg _ (by simp [hne]), ih (lowerStr s :: seen) h1]

/-- C5: for every nonempty comma-separated skill string, `parse_skills`
returns a list whose lowercased names are pairwise distinct (each normalized
skill exactly once), which is a sublist of the cleaned token list (first-seen
order and original casing preserved), which covers every cleaned token up to
case, and in which every element is the FIRST cleaned token with its
lowercase form; the claim's example input parses to ["Python", "Cooking"]. -/
theorem c5_parse_skills_dedup (s : Str) (hne : s ≠ []) :
    ((parse_skills s).map lowerStr).Nodup ∧
    (parse_skills s).Sublist (cleanSkills s) ∧
    (∀ t ∈ cleanSkills s, ∃ u ∈ parse_skills s, lowerStr u = lowerStr t) ∧
    (∀ u ∈ parse_skills s,
      (cleanSkills s).find? (fun t => decide (lowerStr t = lowerStr u)) = some u) ∧
    parse_skills (mkStr "Python, python , Cooking,Python") =
      [mkStr "Python", mkStr "Cooking"] := by
  have hp : parse_skills s = dedupeAux [] (cleanSkills s) := by
    unfold parse_skills
    rw [if_neg hne]
  refine ⟨?_, ?_, ?_, ?_, by decide⟩
  · rw [hp]
    exact nodup_lower_dedupeAux [] _
  · rw [hp]
    exact dedupeAux_sublist [] _
  · intro t ht
    rw [hp]
    rcases cover_dedupeAux [] _ t ht with h | h
    · simp at h
    · exact h
  · intro u hu
    rw [hp] at hu
    exact find_dedupeAux [] _ u hu

/-- C5 witness: the general statement applied to the claim's example. -/
theorem c5_parse_skills_dedup_witness :
    ((parse_skills (mkStr "Python, python , Cooking,Python")).map lowerStr).Nodup ∧
    parse_skills (mkStr "Python, python , Cooking,Python") =
      [mkStr "Python", mkStr "Cooking"] :=
  ⟨(c5_parse_skills_dedup (mkStr "Python, python , Cooking,Python") (by decide)).1,
   (c5_parse_skills_dedup (mkStr "Python, python , Cooking,Python") (by decide)).2.2.2.2⟩

theorem filter_skillQuestions (s sk : Str) (n : Nat) :
    ((skillQuestions s n).filter (fun q => decide (q.1 = sk))).length =
      if s = sk then n else 0 := by
  unfold skillQuestions
  by_cases h : s = sk
  · subst h
    rw [if_pos rfl, List.filter_eq_self.mpr, List.length_map, List.length_range]
    intro a ha
    rcases List.mem_map.mp ha with ⟨i, _, rfl⟩
    simp
  · rw [if_neg h, List.filter_eq_nil_iff.mpr, List.length_nil]
    intro a ha
    rcases List.mem_map.mp ha with ⟨i, _, rfl⟩
    simp [h]

theorem countSkillQuestions_eq (l : List Str) (n : Nat) (sk : Str) :
    countSkillQuestions l n sk = n * occCount l sk := by
  induction l with
  | nil => rfl
  | cons s rest ih =>
    have h1 : countSkillQuestions (s :: rest) n sk =
        ((skillQuestions s n).filter (fun q => decide (q.1 = sk))).length +
          countSkillQuestions rest n sk := by
      unfold countSkillQuestions allQuestions
      rw [List.flatMap_cons, List.filter_append, List.length_append]
    have h2 : occCount (s :: rest) sk = (if s = sk then 1 else 0) + occCount rest sk := by
      unfold occCount
      rw [List.filter_cons]
      by_cases h : s = sk
      · simp [h, Nat.add_comm]
      · simp [h]
    rw [h1, h2, ih, filter_skillQuestions, Nat.mul_add]
    by_cases h : s = sk <;> simp [h]

theorem skillMapFrom_eq_none (n : Nat) (l : List Str) (sk : Str) (h : sk ∉ l) :
    ∀ i, skillMapFrom n l i sk = none := by
  induction l with
  | nil => intro i; rfl
  | cons s rest ih =>
    intro i
    have h1 : sk ∉ rest := fun hc => h (List.mem_cons_of_mem s hc)
    have h2 : ¬(sk = s) := fun hc => h (hc ▸ List.mem_cons_self s rest)
    simp only [skillMapFrom]
    rw [ih h1 (i + 1)]
    simp [h2]

theorem skillMapFrom_eq_last (n : Nat) (l : List Str) (sk : Str) (hm : sk ∈ l) :
    ∀ i, ∃ l1 l2, l = l1 ++ sk :: l2 ∧ sk ∉ l2 ∧
      skillMapFrom n l i sk =
        some ⟨n * (i + l1.length), n * (i + l1.length + 1), n, 0⟩ := by
  induction l with
  | nil => simp at hm
  | cons s rest ih =>
    intro i
    by_cases hr : sk ∈ rest
    · rcases ih hr (i + 1) with ⟨l1, l2, heq, hnot, hmap⟩
      refine ⟨s :: l1, l2, by rw [List.cons_append, heq], hnot, ?_⟩
      simp only [skillMapFrom]
      rw [hmap]
      have e1 : i + 1 + l1.length = i + (s :: l1).length := by
        simp only [List.length_cons]
        omega
      rw [e1]
    · have hs : sk = s := by
        rcases List.mem_cons.mp hm with h1 | h1
        · exact h1
        · exact absurd h1 hr
      refine ⟨[], rest, by rw [hs, List.nil_append], hr, ?_⟩
      simp only [skillMapFrom]
      rw [skillMapFrom_eq_none n rest sk hr (i + 1)]
      simp [hs]

/-- C10: when the raw skill string passed to plan generation repeats a skill
name, questions are generated and inserted for every occurrence (n per
occurrence), but the skill_question_map keeps a single entry for that name
whose start_index/end_index describe only the LAST occurrence's batch of n
questions, so the recorded block's question_count undercounts that skill's
inserted questions. -/
theorem c10_duplicate_skills (s sk : Str) (n : Nat)
    (hdup : 2 ≤ occCount (cleanSkills s) sk) (hn : 1 ≤ n) :
    countSkillQuestions (cleanSkills s) n sk = n * occCount (cleanSkills s) sk ∧
    ∃ b, skill_question_map (cleanSkills s) n sk = some b ∧
      b.question_count = n ∧
      b.end_index - b.start_index = n ∧
      b.question_count < countSkillQuestions (cleanSkills s) n sk ∧
      ∃ l1 l2, cleanSkills s = l1 ++ sk :: l2 ∧ sk ∉ l2 ∧
        b.start_index = n * l1.length ∧ b.end_index = n * (l1.length + 1) := by
  have hmem : sk ∈ cleanSkills s := by
    by_contra hc
    have h0 : occCount (cleanSkills s) sk = 0 := by
      unfold occCount
      rw [List.filter_eq_nil_iff.mpr, List.length_nil]
      intro a ha
      simp only [decide_eq_true_eq]
      intro he
      exact hc (he ▸ ha)
    omega
  rcases skillMapFrom_eq_last n (cleanSkills s) sk hmem 0 with ⟨l1, l2, heq, hnot, hmap⟩
  have hcount := countSkillQuestions_eq (cleanSkills s) n sk
  refine ⟨hcount, ⟨n * (0 + l1.length), n * (0 + l1.length + 1), n, 0⟩, hmap, rfl, ?_, ?_,
    l1, l2, heq, hnot, by simp, by simp [Nat.zero_add]⟩
  · simp only [Nat.zero_add, Nat.mul_succ]
    exact Nat.add_sub_cancel_left (n * l1.length) n
  · rw [hcount]
    have h2 : n * 2 ≤ n * occCount (cleanSkills s) sk := Nat.mul_le_mul_left n hdup
    have h3 : n < n * 2 := by omega
    exact lt_of_lt_of_le h3 h2

/-- C10 witness: the duplicated input "SQL,SQL" with n = 2 inserts 4 SQL
questions while the single stored block (the second occurrence's, indices
2..4) counts only 2. -/
theorem c10_duplicate_skills_witness :
    countSkillQuestions (cleanSkills (mkStr "SQL,SQL")) 2 (mkStr "SQL") =
      2 * occCount (cleanSkills (mkStr "SQL,SQL")) (mkStr "SQL") ∧
    skill_question_map (cleanSkills (mkStr "SQL,SQL")) 2 (mkStr "SQL") = some ⟨2, 4, 2, 0⟩ :=
  ⟨(c10_duplicate_skills (mkStr "SQL,SQL") (mkStr "SQL") 2 (by decide) (by decide)).1,
   by decide⟩

theorem lookupRating_mapOverwrite (m : List (Str × SkillRating)) (k : Str) (v : SkillRating)
    (h : (lookupRating m k).isSome = true) :
    lookupRating (m.map (fun p => if p.1 = k then (k, v) else p)) k = some v := by
  induction m with
  | nil => simp [lookupRating] at h
  | cons p rest ih =>
    simp only [List.map_cons]
    by_cases hp : p.1 = k
    · rw [if_pos hp]
      simp [lookupRating]
    · rw [if_neg hp]
      simp only [lookupRating] at h ⊢
      rw [if_neg hp] at h ⊢
      exact ih h

theorem lookupRating_append_self (m : List (Str × SkillRating)) (k : Str) (v : SkillRating)
    (h : lookupRating m k = none) :
    lookupRating (m ++ [(k, v)]) k = some v := by
  induction m with
  | nil => simp [lookupRating]
  | cons p rest ih =>
    simp only [List.cons_append, lookupRating] at h ⊢
    by_cases hp : p.1 = k
    · rw [if_pos hp] at h
      exact absurd h (by simp)
    · rw [if_neg hp] at h ⊢
      exact ih h

theorem lookupRating_setRating (m : List (Str × SkillRating)) (k : Str) (v : SkillRating) :
    lookupRating (setRating m k v) k = some v := by
  unfold setRating
  by_cases h : (lookupRating m k).isSome = true
  · rw [if_pos h]
    exact lookupRating_mapOverwrite m k v h
  · rw [if_neg h]
    apply lookupRating_append_self
    rcases h2 : lookupRating m k with _ | w
    · rfl
    · rw [h2] at h
      simp at h

theorem check_and_update_status (s : Interview) (sk : Str) :
    (check_and_update_skill_rating s sk).1.status = s.status := by
  unfold check_and_update_skill_rating
  rcases ratingOf s.questions sk with _ | r <;> rfl

theorem check_and_update_questions (s : Interview) (sk : Str) :
    (check_and_update_skill_rating s sk).1.questions = s.questions := by
  unfold check_and_update_skill_rating
  rcases ratingOf s.questions sk with _ | r <;> rfl


theorem submit_404 (s : Interview) (qid : Nat) (resp : Str) (v : Rat)
    (hf : s.questions.find? (fun q => decide (q.qid = qid)) = none) :
    submit_skill_based_response s qid resp v = (s, none) := by
  simp only [submit_skill_based_response, hf]

theorem submit_status_cases (s : Interview) (qid : Nat) (resp : Str) (v : Rat) :
    (submit_skill_based_response s qid resp v).1.status = .completed ∨
    (submit_skill_based_response s qid resp v).1.status = s.status := by
  rcases hf : s.questions.find? (fun q => decide (q.qid = qid)) with _ | q0
  · right
    rw [submit_404 s qid resp v hf]
  · simp only [submit_skill_based_response, hf]
    split
    · left
      rfl
    · right
      rw [check_and_update_status]

theorem submit_flag_found (s : Interview) (qid : Nat) (resp : Str) (v : Rat) (q0 : IQuestion)
    (hf : s.questions.find? (fun q => decide (q.qid = qid)) = some q0) :
    (submit_skill_based_response s qid resp v).2 =
      some (decide (((s.questions.map (updQ qid resp v)).filter
          (fun q => q.response.isSome)).length =
        (s.questions.map (updQ qid resp v)).length)) := by
  simp only [submit_skill_based_response, hf, check_and_update_questions]
  split <;> rfl

theorem updQ_skill (qid : Nat) (resp : Str) (v : Rat) (q : IQuestion) :
    (updQ qid resp v q).skill = q.skill := by
  unfold updQ
  by_cases hq : q.qid = qid
  · rw [if_pos hq]
  · rw [if_neg hq]

theorem updQ_score (qid : Nat) (resp : Str) (v : Rat) (q : IQuestion)
    (hsc : q.qid = qid → q.score = some v) :
    (updQ qid resp v q).score = q.score := by
  unfold updQ
  by_cases hq : q.qid = qid
  · rw [if_pos hq, hsc hq]
  · rw [if_neg hq]

theorem updQ_respSome (qid : Nat) (resp : Str) (v : Rat) (q : IQuestion)
    (hrs : q.qid = qid → q.response.isSome = true) :
    (updQ qid resp v q).response.isSome = q.response.isSome := by
  unfold updQ
  by_cases hq : q.qid = qid
  · rw [if_pos hq]
    simp [hrs hq]
  · rw [if_neg hq]

theorem updQ_preserve (qid : Nat) (resp : Str) (v : Rat) (sk : Str) (l : List IQuestion)
    (h : ∀ q ∈ l, q.qid = qid → q.score = some v ∧ q.response.isSome = true) :
    (answeredList (l.map (updQ qid resp v)) sk).filterMap (fun q => q.score) =
      (answeredList l sk).filterMap (fun q => q.score) ∧
    (answeredList (l.map (updQ qid resp v)) sk).length = (answeredList l sk).length ∧
    skillTotal (l.map (updQ qid resp v)) sk = skillTotal l sk := by
  induction l with
  | nil => exact ⟨rfl, rfl, rfl⟩
  | cons q rest ih =>
    obtain ⟨ih1, ih2, ih3⟩ := ih (fun p hp hq => h p (List.mem_cons_of_mem q hp) hq)
    have hB := updQ_score qid resp v q (fun hq => (h q (List.mem_cons_self q rest) hq).1)
    have hC := updQ_skill qid resp v q
    have hD := updQ_respSome qid resp v q (fun hq => (h q (List.mem_cons_self q rest) hq).2)
    simp only [answeredList, skillTotal] at ih1 ih2 ih3 ⊢
    refine ⟨?_, ?_, ?_⟩
    · simp only [List.map_cons, List.filter_cons, hC, hD]
      by_cases hkeep : (decide (q.skill = sk) && q.response.isSome) = true
      · simp only [if_pos hkeep, List.filterMap_cons, hB, ih1]
      · simp only [if_neg hkeep, ih1]
    · simp only [List.map_cons, List.filter_cons, hC, hD]
      by_cases hkeep : (decide (q.skill = sk) && q.response.isSome) = true
      · simp only [if_pos hkeep, List.length_cons, ih2]
      · simp only [if_neg hkeep, ih2]
    · simp only [List.map_cons, List.filter_cons, hC]
      by_cases hkeep : decide (q.skill = sk) = true
      · simp only [if_pos hkeep, List.length_cons, ih3]
      · simp only [if_neg hkeep, ih3]

theorem ratingOf_map_updQ (qid : Nat) (resp : Str) (v : Rat) (sk : Str) (l : List IQuestion)
    (h : ∀ q ∈ l, q.qid = qid → q.score = some v ∧ q.response.isSome = true) :
    ratingOf (l.map (updQ qid resp v)) sk = ratingOf l sk := by
  obtain ⟨h1, h2, h3⟩ := updQ_preserve qid resp v sk l h
  unfold ratingOf
  rw [h1, h2, h3]

theorem filterMap_score_eq_map (l : List IQuestion) (h : ∀ q ∈ l, q.score.isSome = true) :
    l.filterMap (fun q => q.score) = l.map (fun q => q.score.getD 0) := by
  induction l with
  | nil => rfl
  | cons q rest ih =>
    rcases hq : q.score with _ | w
    · have h1 := h q (List.mem_cons_self q rest)
      rw [hq] at h1
      simp at h1
    · rw [List.filterMap_cons, List.map_cons, hq]
      simp only [Option.getD_some]
      rw [ih (fun p hp => h p (List.mem_cons_of_mem q hp))]

/-- C3 counterexample: an interview whose single SQL question is answered
with score 6 and whose cached SQL rating is the matching (3 stars, avg 6);
submitting a duplicate response to that question, now evaluated at score 2,
overwrites the cached rating with (1 star, avg 2) — the cached star_rating
and average_score do change. -/
theorem c3_counterexample :
    lookupRating
        (submit_skill_based_response
          ⟨[⟨1, mkStr "SQL", some (mkStr "first answer"), some 6⟩],
           [(mkStr "SQL", ⟨3, 6⟩)], .completed⟩
          1 (mkStr "second answer") 2).1.skill_ratings (mkStr "SQL") = some ⟨1, 2⟩ ∧
    lookupRating [(mkStr "SQL", (⟨3, 6⟩ : SkillRating))] (mkStr "SQL") = some ⟨3, 6⟩ ∧
    (⟨3, 6⟩ : SkillRating) ≠ ⟨1, 2⟩ := by
  refine ⟨?_, by decide, by decide⟩
  with_unfolding_all decide

/-- C3 amended: a submission to a question of an already fully-answered
skill recomputes that skill's rating from the now-current scores and
overwrites the cached entry (there is no write-once guard); consequently the
cached star_rating and average_score are unchanged exactly when the
recomputation yields the old value — in particular whenever the duplicate
evaluation returns the same score the row already had and the cache matched
the recomputation, as is the case for caches written by the submit path. -/
theorem c3_amended_rating_overwrite (s : Interview) (qid : Nat) (resp : Str) (v : Rat)
    (q0 : IQuestion)
    (hf : s.questions.find? (fun q => decide (q.qid = qid)) = some q0)
    (hall : ∀ q ∈ s.questions, q.qid = qid → q.score = some v ∧ q.response.isSome = true)
    (hst : lookupRating s.skill_ratings q0.skill = ratingOf s.questions q0.skill) :
    lookupRating (submit_skill_based_response s qid resp v).1.skill_ratings q0.skill =
      lookupRating s.skill_ratings q0.skill := by
  simp only [submit_skill_based_response, hf]
  unfold check_and_update_skill_rating
  dsimp only
  rw [ratingOf_map_updQ qid resp v q0.skill s.questions hall]
  rcases hro : ratingOf s.questions q0.skill with _ | r
  · split <;> rfl
  · split <;>
    · dsimp only
      rw [lookupRating_setRating, hst, hro]

/-- C3 witness: resubmitting the same score 6 to the fully-answered SQL
skill whose cache matches the recomputation leaves the cache unchanged. -/
theorem c3_amended_rating_overwrite_witness :
    lookupRating
        (submit_skill_based_response
          ⟨[⟨1, mkStr "SQL", some (mkStr "first answer"), some 6⟩],
           [(mkStr "SQL", ⟨3, 6⟩)], .completed⟩
          1 (mkStr "again") 6).1.skill_ratings (mkStr "SQL") =
      lookupRating [(mkStr "SQL", (⟨3, 6⟩ : SkillRating))] (mkStr "SQL") :=
  c3_amended_rating_overwrite
    ⟨[⟨1, mkStr "SQL", some (mkStr "first answer"), some 6⟩],
     [(mkStr "SQL", ⟨3, 6⟩)], .completed⟩
    1 (mkStr "again") 6 ⟨1, mkStr "SQL", some (mkStr "first answer"), some 6⟩
    (by decide) (by decide) (by with_unfolding_all decide)

/-- C8: interview completion is monotonic — a submission never moves the
status away from `completed` (the submit path only ever writes `completed`,
and only when the freshly recomputed answered count equals the total count);
moreover the `completed` flag a submission reports is exactly the recomputed
comparison answered_count = total_count over the updated question rows. -/
theorem c8_completion_monotonic (s : Interview) (qid : Nat) (resp : Str) (v : Rat)
    (h : s.status = .completed) :
    (submit_skill_based_response s qid resp v).1.status = .completed ∧
    ∀ b, (submit_skill_based_response s qid resp v).2 = some b →
      (b = true ↔
        ((s.questions.map (updQ qid resp v)).filter (fun q => q.response.isSome)).length =
          (s.questions.map (updQ qid resp v)).length) := by
  constructor
  · rcases submit_status_cases s qid resp v with h1 | h1
    · exact h1
    · rw [h1, h]
  · intro b hb
    rcases hf : s.questions.find? (fun q => decide (q.qid = qid)) with _ | q0
    · rw [submit_404 s qid resp v hf] at hb
      simp at hb
    · rw [submit_flag_found s qid resp v q0 hf] at hb
      simp only [Option.some.injEq] at hb
      subst hb
      simp

/-- C8 witness: a completed one-question interview stays completed after a
further submission. -/
theorem c8_completion_monotonic_witness :
    (submit_skill_based_response
        ⟨[⟨1, mkStr "SQL", some (mkStr "ans"), some 6⟩],
         [(mkStr "SQL", ⟨3, 6⟩)], .completed⟩
        1 (mkStr "again") 2).1.status = .completed :=
  (c8_completion_monotonic
    ⟨[⟨1, mkStr "SQL", some (mkStr "ans"), some 6⟩],
     [(mkStr "SQL", ⟨3, 6⟩)], .completed⟩
    1 (mkStr "again") 2 rfl).1

/-- C9: when every question row of the interview has a non-null response and
a non-null score, and a skill has at least one question, the submit-time
stored-ratings computation (`check_and_update_skill_rating`, here its core
`ratingOf`) and the results-endpoint on-the-fly recomputation
(`fetchSkillRating`) produce the same star rating for that skill. -/
theorem c9_paths_agree (qs : List IQuestion) (sk : Str)
    (hall : ∀ q ∈ qs, q.response.isSome = true ∧ q.score.isSome = true)
    (hex : ∃ q ∈ qs, q.skill = sk) :
    fetchSkillRating qs sk = (ratingOf qs sk).map (fun r => r.star_rating) := by
  have hresp : ∀ q ∈ qs, q.response.isSome = true := fun q hq => (hall q hq).1
  have hfetchF : qs.filter (fun q => q.response.isSome && decide (q.skill = sk)) =
      qs.filter (fun q => decide (q.skill = sk)) := by
    apply List.filter_congr
    intro q hq
    rw [hresp q hq, Bool.true_and]
  have hansF : answeredList qs sk = qs.filter (fun q => decide (q.skill = sk)) := by
    unfold answeredList
    apply List.filter_congr
    intro q hq
    rw [hresp q hq, Bool.and_true]
  have hFscores : ∀ q ∈ qs.filter (fun q => decide (q.skill = sk)), q.score.isSome = true := by
    intro q hq
    exact (hall q (List.mem_of_mem_filter hq)).2
  have hFne : qs.filter (fun q => decide (q.skill = sk)) ≠ [] := by
    rcases hex with ⟨q, hq, hsk⟩
    intro hFnil
    have hmem : q ∈ qs.filter (fun q => decide (q.skill = sk)) :=
      List.mem_filter.mpr ⟨hq, by simp [hsk]⟩
    rw [hFnil] at hmem
    simp at hmem
  have hscores : (answeredList qs sk).filterMap (fun q => q.score) =
      (qs.filter (fun q => decide (q.skill = sk))).map (fun q => q.score.getD 0) := by
    rw [hansF]
    exact filterMap_score_eq_map _ hFscores
  have hfs : fetchSkillScores qs sk =
      (qs.filter (fun q => decide (q.skill = sk))).map (fun q => q.score.getD 0) := by
    unfold fetchSkillScores
    rw [hfetchF]
  have hne2 : (qs.filter (fun q => decide (q.skill = sk))).map (fun q => q.score.getD 0) ≠ [] := by
    intro hnil
    exact hFne (List.map_eq_nil_iff.mp hnil)
  have hlen : (answeredList qs sk).length = skillTotal qs sk := by
    rw [hansF]
    rfl
  have hpos : 0 < (answeredList qs sk).length := by
    rw [hansF]
    exact List.length_pos.mpr hFne
  unfold fetchSkillRating ratingOf
  rw [hfs, hscores, if_neg hne2, if_pos ⟨hlen, hpos⟩, if_neg hne2]
  rfl

/-- C9 witness: two answered SQL questions scored 9 and 7 (average 8): both
paths give 4 stars. -/
theorem c9_paths_agree_witness :
    fetchSkillRating
        [⟨1, mkStr "SQL", some (mkStr "a"), some 9⟩, ⟨2, mkStr "SQL", some (mkStr "b"), some 7⟩]
        (mkStr "SQL") =
      (ratingOf
        [⟨1, mkStr "SQL", some (mkStr "a"), some 9⟩, ⟨2, mkStr "SQL", some (mkStr "b"), some 7⟩]
        (mkStr "SQL")).map (fun r => r.star_rating) :=
  c9_paths_agree
    [⟨1, mkStr "SQL", some (mkStr "a"), some 9⟩, ⟨2, mkStr "SQL", some (mkStr "b"), some 7⟩]
    (mkStr "SQL") (by decide) (by decide)
